import Mathlib

/-!
Verification of the deterministic game-orchestration core of the aiwolfgame
repository: role-pack composition (RoleBuilder), the phase transition table,
vote collection with fallback and tie handling (VoteCollector, handleVotePhase),
night resolution (NightResolver) and the victory checker.

Each definition is a shallow embedding of the corresponding TypeScript source.
JavaScript Map values are embedded as association lists in insertion order
(Map.set updates an existing key in place, otherwise appends); JavaScript Set
values are embedded as duplicate-free lists in insertion order.  Fields of the
source records that are pure wall-clock bookkeeping (timestamps, deadlines) or
display strings are omitted; they do not feed any decision in the claims.
-/

/-! ### Roles, teams and packs (packages/shared types, roles.ts) -/

inductive Role where
  | VILLAGER | WEREWOLF | SEER | MEDIUM | MADMAN | KNIGHT
  | FOX | BETRAYER | CAT | FREEMASON | HUNTER | FANATIC | WHITE_WOLF
deriving DecidableEq, Repr

inductive Team where
  | VILLAGE | WEREWOLF | FOX
deriving DecidableEq, Repr

/-- ROLE_TEAMS from the shared roles module: team of each role. -/
def ROLE_TEAMS : Role → Team
  | .VILLAGER => .VILLAGE
  | .SEER => .VILLAGE
  | .MEDIUM => .VILLAGE
  | .KNIGHT => .VILLAGE
  | .FREEMASON => .VILLAGE
  | .HUNTER => .VILLAGE
  | .CAT => .VILLAGE
  | .WEREWOLF => .WEREWOLF
  | .WHITE_WOLF => .WEREWOLF
  | .MADMAN => .WEREWOLF
  | .FANATIC => .WEREWOLF
  | .FOX => .FOX
  | .BETRAYER => .FOX

/-- BASE_ROLES_11: the fixed base distribution of the 11-player game. -/
def BASE_ROLES_11 : List Role :=
  [.WEREWOLF, .WEREWOLF, .SEER, .MEDIUM, .MADMAN, .KNIGHT,
   .VILLAGER, .VILLAGER, .VILLAGER, .VILLAGER, .VILLAGER]

inductive Pack where
  | FOX | FREEMASON | HUNTER | FANATIC | WHITE_WOLF
deriving DecidableEq, Repr

inductive PackConstraintType where
  | THIRD_PARTY_EXCLUSIVE | JUDGMENT_EXCLUSIVE | WEIGHT_REDUCTION
deriving DecidableEq, Repr

structure PackConfig where
  replaces : List Role
  newRoles : List Role
  constraints : List PackConstraintType
deriving DecidableEq, Repr

/-- ALL_PACK_CONFIGS from roles/configs: replacement declaration of each pack. -/
def ALL_PACK_CONFIGS : Pack → PackConfig
  | .FOX => ⟨[.VILLAGER], [.FOX], [.THIRD_PARTY_EXCLUSIVE]⟩
  | .FREEMASON => ⟨[.VILLAGER, .VILLAGER], [.FREEMASON, .FREEMASON], [.WEIGHT_REDUCTION]⟩
  | .HUNTER => ⟨[.VILLAGER], [.HUNTER], []⟩
  | .FANATIC => ⟨[.MADMAN], [.FANATIC], [.JUDGMENT_EXCLUSIVE, .WEIGHT_REDUCTION]⟩
  | .WHITE_WOLF => ⟨[.WEREWOLF], [.WHITE_WOLF], [.JUDGMENT_EXCLUSIVE]⟩

/-- Whether a pack declares a constraint of the given type
(RoleBuilder.validatePacks uses constraints.some on the type tag). -/
def hasConstraint (p : Pack) (c : PackConstraintType) : Bool :=
  (ALL_PACK_CONFIGS p).constraints.contains c

/-- RoleBuilder.validatePacks, reduced to its valid bit: no duplicate packs
(Set size equals list length), at most one THIRD_PARTY_EXCLUSIVE pack, at most
one JUDGMENT_EXCLUSIVE pack.  The WEIGHT_REDUCTION check only emits a warning
and does not affect validity. -/
def validatePacks (packs : List Pack) : Bool :=
  (packs.dedup.length == packs.length)
    && decide ((packs.filter (fun p => hasConstraint p .THIRD_PARTY_EXCLUSIVE)).length ≤ 1)
    && decide ((packs.filter (fun p => hasConstraint p .JUDGMENT_EXCLUSIVE)).length ≤ 1)

/-- Replace the first occurrence of a role in a list (indexOf then assignment
in RoleBuilder.applyPackSubstitution); none when the role is absent. -/
def replaceFirst : List Role → Role → Role → Option (List Role)
  | [], _, _ => none
  | r :: rest, old, new =>
    if r = old then some (new :: rest)
    else (replaceFirst rest old new).map (r :: ·)

/-- RoleBuilder.applyPackSubstitution: replace the declared base roles, in
order, each by the paired new role; the source loops over the indices of
config.replaces and reads config.newRoles at the same index, which the zip
reproduces because every pack config declares lists of equal length. -/
def applyPackSubstitution (roles : List Role) (pack : Pack) : Option (List Role) :=
  ((ALL_PACK_CONFIGS pack).replaces.zip (ALL_PACK_CONFIGS pack).newRoles).foldlM
    (fun acc pr => replaceFirst acc pr.1 pr.2) roles

/-- The pack-by-pack substitution fold of RoleBuilder.buildRoles, starting
from the base multiset. -/
def substAll (packs : List Pack) : Option (List Role) :=
  packs.foldlM (fun roles p => applyPackSubstitution roles p) BASE_ROLES_11

/-- RoleBuilder.buildRoles: validate the pack combination, apply the pack
substitutions in list order, then check the final count is exactly 11. -/
def buildRoles (packs : List Pack) : Except String (List Role) :=
  if !validatePacks packs then .error "Invalid pack combination"
  else
    match substAll packs with
    | none => .error "Cannot apply pack: role to replace not found"
    | some roles =>
      if roles.length ≠ 11 then .error "Role count mismatch"
      else .ok roles

/-- Divination and medium verdicts (the WEREWOLF or HUMAN strings of the source). -/
inductive OracleResult where
  | WEREWOLF | HUMAN
deriving DecidableEq, Repr

/-- RoleBuilder.getDivinationResult: what the seer is told about a role.
WHITE_WOLF appears human and FANATIC appears werewolf by design. -/
def getDivinationResult (role : Role) : OracleResult :=
  match role with
  | .WEREWOLF => .WEREWOLF
  | .WHITE_WOLF => .HUMAN
  | .FANATIC => .WEREWOLF
  | _ => .HUMAN

/-- RoleBuilder.getMediumResult: what the medium learns about an executed role. -/
def getMediumResult (role : Role) : OracleResult :=
  match role with
  | .WEREWOLF => .WEREWOLF
  | .WHITE_WOLF => .WEREWOLF
  | _ => .HUMAN

/-! ### Phase state machine: phases, events and the transition table
(packages/fsm/src/transitions.ts) -/

inductive GamePhase where
  | LOBBY | INIT | ASSIGN_ROLES | DAY_FREE_TALK | DAY_VOTE
  | DAY_REVOTE_TALK | DAY_REVOTE | LAST_WILL
  | NIGHT_WOLF_CHAT | NIGHT_ACTIONS | DAWN | CHECK_END | GAME_OVER
deriving DecidableEq, Repr

inductive GameEventType where
  | START_GAME | ROLES_ASSIGNED | START_DAY | START_VOTE | VOTE
  | VOTE_COMPLETE | CHECK_VICTORY | START_NIGHT | WOLF_CHAT_MESSAGE
  | ENTER_PHASE | START_NIGHT_ACTIONS | NIGHT_ACTION | WOLF_ATTACK
  | RESOLVE_NIGHT | NIGHT_COMPLETE | START_DAWN | DAWN_COMPLETE
  | LAST_WILL_COMPLETE | GAME_END
deriving DecidableEq, Repr

/-- PHASE_TRANSITIONS of transitions.ts: the explicit transition table,
entry by entry; an absent entry is none. -/
def PHASE_TRANSITIONS : GamePhase → GameEventType → Option GamePhase
  | .LOBBY, .START_GAME => some .INIT
  | .INIT, .ROLES_ASSIGNED => some .ASSIGN_ROLES
  | .ASSIGN_ROLES, .START_DAY => some .DAY_FREE_TALK
  | .DAY_FREE_TALK, .START_VOTE => some .DAY_VOTE
  | .DAY_VOTE, .VOTE => some .DAY_VOTE
  | .DAY_VOTE, .VOTE_COMPLETE => some .LAST_WILL
  | .DAY_VOTE, .START_NIGHT => some .NIGHT_WOLF_CHAT
  | .DAY_REVOTE_TALK, .START_VOTE => some .DAY_REVOTE
  | .DAY_REVOTE, .VOTE => some .DAY_REVOTE
  | .DAY_REVOTE, .VOTE_COMPLETE => some .LAST_WILL
  | .DAY_REVOTE, .START_NIGHT => some .NIGHT_WOLF_CHAT
  | .LAST_WILL, .LAST_WILL_COMPLETE => some .CHECK_END
  | .NIGHT_WOLF_CHAT, .WOLF_CHAT_MESSAGE => some .NIGHT_WOLF_CHAT
  | .NIGHT_WOLF_CHAT, .START_NIGHT_ACTIONS => some .NIGHT_ACTIONS
  | .NIGHT_WOLF_CHAT, .NIGHT_COMPLETE => some .NIGHT_ACTIONS
  | .NIGHT_ACTIONS, .NIGHT_ACTION => some .NIGHT_ACTIONS
  | .NIGHT_ACTIONS, .WOLF_ATTACK => some .NIGHT_ACTIONS
  | .NIGHT_ACTIONS, .START_DAWN => some .DAWN
  | .DAWN, .DAWN_COMPLETE => some .CHECK_END
  | .CHECK_END, .START_DAY => some .DAY_FREE_TALK
  | .CHECK_END, .GAME_END => some .GAME_OVER
  | _, _ => none

/-- isValidTransition: an event is allowed exactly when the table has an entry. -/
def isValidTransition (currentPhase : GamePhase) (eventType : GameEventType) : Bool :=
  (PHASE_TRANSITIONS currentPhase eventType).isSome

/-- getNextPhase: the phase recorded in the table, none when absent. -/
def getNextPhase (currentPhase : GamePhase) (eventType : GameEventType) : Option GamePhase :=
  PHASE_TRANSITIONS currentPhase eventType

/-! ### Association-list embedding of JavaScript Map and Set -/

/-- Map.get as an association-list lookup (first entry with the key). -/
def mapGet {α : Type} (m : List (String × α)) (k : String) : Option α :=
  match m with
  | [] => none
  | p :: rest => if p.1 == k then some p.2 else mapGet rest k

/-- Map.has. -/
def mapHas {α : Type} (m : List (String × α)) (k : String) : Bool :=
  (mapGet m k).isSome

/-- Map.set: update the entry of an existing key in place, otherwise append
at the end. -/
def mapSet {α : Type} (m : List (String × α)) (k : String) (v : α) : List (String × α) :=
  match m with
  | [] => [(k, v)]
  | p :: rest => if p.1 == k then (k, v) :: rest else p :: mapSet rest k v

/-! ### Seeded RNG -/

/-- Modelled from the spec: the shared SeededRNG class
(packages/shared/src/utils/seededRandom.ts is not among the provided sources;
only its unit test and its callers are).  The spec requires a seeded
deterministic pseudo-random source with choice, shuffle, sample and range
operations, every draw a pure function of the seed.  The generator state is
modelled as a natural number advanced by a linear congruential step, and
choice picks the element indexed by the next draw modulo the list length,
failing on the empty list exactly as the source throws there. -/
def rngStep (s : Nat) : Nat := (s * 1103515245 + 12345) % 2147483648

structure SeededRNG where
  state : Nat
deriving Repr, DecidableEq

/-- new SeededRNG(seed). -/
def SeededRNG.init (seed : Nat) : SeededRNG := ⟨rngStep seed⟩

/-- rng.choice(xs): a deterministic element of a nonempty list, advancing the
generator; none on the empty list (the source throws there). -/
def SeededRNG.choice (r : SeededRNG) (xs : List String) : Option (String × SeededRNG) :=
  match xs with
  | [] => none
  | x :: rest => some ((x :: rest).getD (r.state % (x :: rest).length) x, ⟨rngStep r.state⟩)

/-! ### Game state (shared types/game.ts, restricted to the decision-relevant
fields; wall-clock fields and display configuration are omitted) -/

structure GameSeeds where
  roster : Nat
  roles : Nat
  packs : Nat
  turns : Nat
  wolfLeader : Nat
deriving Repr, DecidableEq

/-- Player, restricted to id, liveness and the stated-suspicion record
(lastBelief.suspectId) that the fallback engine consults. -/
structure PlayerE where
  id : String
  isAlive : Bool
  lastBelief : Option String
deriving Repr, DecidableEq

inductive DeathType where
  | EXECUTED | HUNTER | ATTACKED
deriving DecidableEq, Repr

structure DeathRecord where
  playerId : String
  dayNumber : Nat
  deathType : DeathType
deriving Repr, DecidableEq

structure GameState where
  phase : GamePhase
  dayNumber : Nat
  players : List PlayerE
  alivePlayers : List String
  roleAssignments : List (String × Role)
  seeds : GameSeeds
  votes : List (String × String)
  deaths : List DeathRecord
  tiedPlayers : Option (List String)
  executedPlayerId : Option String
deriving Repr, DecidableEq

/-! ### Vote collector (packages/fsm/src/vote/VoteCollector.ts) -/

structure VoteResult where
  executedPlayerId : String
  votes : List (String × String)
  counts : List (String × Nat)
  tieResolved : Bool
deriving Repr, DecidableEq

/-- One step of VoteCollector.fillMissingVotes: a live player keeps a recorded
vote; otherwise a seeded-random target among the live players other than the
voter is synthesized when one exists. -/
def fillStep (aliveAll : List String) (acc : List (String × String) × SeededRNG)
    (playerId : String) : List (String × String) × SeededRNG :=
  if mapHas acc.1 playerId then acc
  else
    let validTargets := aliveAll.filter (fun id => id ≠ playerId)
    match acc.2.choice validTargets with
    | some (target, rng) => (mapSet acc.1 playerId target, rng)
    | none => acc

/-- VoteCollector.fillMissingVotes: walk the live players in order with one
generator seeded by seeds.turns + dayNumber. -/
def fillMissingVotes (state : GameState) (votes : List (String × String)) :
    List (String × String) :=
  (state.alivePlayers.foldl (fillStep state.alivePlayers)
    (votes, SeededRNG.init (state.seeds.turns + state.dayNumber))).1

/-- Map.set(target, (get(target) or 0) + 1): bump the first entry of the key,
appending a fresh entry with count 1 when absent. -/
def mapIncr : List (String × Nat) → String → List (String × Nat)
  | [], t => [(t, 1)]
  | (k, c) :: rest, t => if k == t then (k, c + 1) :: rest else (k, c) :: mapIncr rest t

/-- VoteCollector.countVotes: tally the vote values in insertion order. -/
def countVotes (votes : List (String × String)) : List (String × Nat) :=
  votes.foldl (fun counts pr => mapIncr counts pr.2) []

/-- Math.max over the counts map values (0 on the empty map; the source only
evaluates it on nonempty maps). -/
def maxCount (counts : List (String × Nat)) : Nat :=
  counts.foldl (fun m pr => Nat.max m pr.2) 0

/-- The max-count candidate computation shared by resolveExecution, hasTie
and handleVotePhase: the targets whose count equals the maximum count. -/
def tiedIds (counts : List (String × Nat)) : List String :=
  (counts.filter (fun pr => pr.2 == maxCount counts)).map (·.1)

/-- VoteCollector.resolveExecution: error on the empty map, the unique
max-count holder otherwise, and a seeded draw among the tied candidates. -/
def resolveExecution (counts : List (String × Nat)) (seed dayNumber : Nat) :
    Except String String :=
  if counts.isEmpty then .error "No votes to resolve"
  else
    let candidates := tiedIds counts
    if candidates.length == 1 then
      match candidates with
      | c :: _ => .ok c
      | [] => .error "no candidate"
    else
      match (SeededRNG.init (seed + dayNumber + 1000)).choice candidates with
      | some (c, _) => .ok c
      | none => .error "choice on empty list"

/-- VoteCollector.hasTie: more than one count value equals the maximum. -/
def hasTie (counts : List (String × Nat)) : Bool :=
  if counts.isEmpty then false
  else decide (1 < (counts.filter (fun pr => pr.2 == maxCount counts)).length)

/-- VoteCollector.finalizeVotes on the submitted vote map of the state. -/
def finalizeVotes (state : GameState) (votes : List (String × String)) :
    Except String VoteResult :=
  let completeVotes := fillMissingVotes state votes
  let counts := countVotes completeVotes
  match resolveExecution counts state.seeds.turns state.dayNumber with
  | .error e => .error e
  | .ok executedPlayerId =>
    .ok ⟨executedPlayerId, completeVotes, counts, hasTie counts⟩

/-! ### Day-vote transition handler (packages/fsm/src/handlers/voteHandlers.ts)

The handler draws the hunter chain-kill victim with Math.random, an unseeded
process-wide source; that draw is made explicit as the oracle argument, with
victim index oracle % targets.length, exactly the possible outcomes of
Math.floor(Math.random() * targets.length). -/

/-- players.find(p => p.id === pid) followed by p.isAlive = false: flip the
liveness bit of the first matching player only. -/
def markDeadFirst : List PlayerE → String → List PlayerE
  | [], _ => []
  | p :: ps, pid =>
    if p.id == pid then { p with isAlive := false } :: ps
    else p :: markDeadFirst ps pid

/-- handleVotePhase: finalize the collected votes, route ties (first tie to
DAY_REVOTE_TALK, second tie to CHECK_END with no execution), otherwise execute
the resolved target, run the unseeded hunter chain kill, and move to
LAST_WILL. -/
def handleVotePhase (state : GameState) (oracle : Nat) : Except String GameState :=
  match finalizeVotes state state.votes with
  | .error e => .error e
  | .ok result =>
    let tiedPlayerIds := tiedIds result.counts
    if 1 < tiedPlayerIds.length ∧ state.phase = GamePhase.DAY_VOTE then
      .ok { state with
              tiedPlayers := some tiedPlayerIds,
              phase := .DAY_REVOTE_TALK }
    else if 1 < tiedPlayerIds.length ∧ state.phase = GamePhase.DAY_REVOTE then
      .ok { state with
              votes := [],
              tiedPlayers := none,
              phase := .CHECK_END }
    else
      let executedPlayerId := result.executedPlayerId
      let found := state.players.any (fun p => p.id == executedPlayerId)
      let players1 := if found then markDeadFirst state.players executedPlayerId
                      else state.players
      let alive1 := if found then state.alivePlayers.erase executedPlayerId
                    else state.alivePlayers
      let deaths1 := state.deaths ++ [⟨executedPlayerId, state.dayNumber, .EXECUTED⟩]
      let executedRole := mapGet state.roleAssignments executedPlayerId
      if executedRole = some Role.HUNTER ∧ 0 < alive1.length then
        let targets := alive1
        let hunterVictimId := targets.getD (oracle % targets.length) ""
        let foundV := players1.any (fun p => p.id == hunterVictimId)
        let players2 := if foundV then markDeadFirst players1 hunterVictimId else players1
        let alive2 := if foundV then alive1.erase hunterVictimId else alive1
        let deaths2 := if foundV then deaths1 ++ [⟨hunterVictimId, state.dayNumber, .HUNTER⟩]
                       else deaths1
        .ok { state with
                players := players2,
                alivePlayers := alive2,
                deaths := deaths2,
                votes := [],
                tiedPlayers := none,
                executedPlayerId := some executedPlayerId,
                phase := .LAST_WILL }
      else
        .ok { state with
                players := players1,
                alivePlayers := alive1,
                deaths := deaths1,
                votes := [],
                tiedPlayers := none,
                executedPlayerId := some executedPlayerId,
                phase := .LAST_WILL }

/-! ### Victory checker (packages/fsm/src/night/NightResolver.ts,
class VictoryChecker) -/

structure VictoryResult where
  hasWinner : Bool
  winner : Option Team
deriving Repr, DecidableEq

/-- The roles of the live players; a live id with no assignment contributes
nothing, exactly as the non-null-asserted lookup feeds an undefined team into
none of the three counters. -/
def aliveRoles (state : GameState) : List Role :=
  state.alivePlayers.filterMap (fun id => mapGet state.roleAssignments id)

/-- The per-team live head count of VictoryChecker.check. -/
def countTeam (state : GameState) (t : Team) : Nat :=
  (aliveRoles state).countP (fun r => ROLE_TEAMS r == t)

/-- VictoryChecker.check: werewolves win on parity with everyone else, the
village wins when no werewolf lives, and a live fox overrides either side. -/
def victoryCheck (state : GameState) : VictoryResult :=
  let werewolf := countTeam state .WEREWOLF
  let village := countTeam state .VILLAGE
  let fox := countTeam state .FOX
  let hasFox := 0 < fox
  if village + fox ≤ werewolf then
    if hasFox then ⟨true, some .FOX⟩ else ⟨true, some .WEREWOLF⟩
  else if werewolf = 0 then
    if hasFox then ⟨true, some .FOX⟩ else ⟨true, some .VILLAGE⟩
  else ⟨false, none⟩

/-! ### Night resolver (packages/fsm/src/night/NightResolver.ts) -/

structure NightActionsE where
  divinations : List (String × String)
  protections : List (String × String)
  attack : Option String
deriving Repr, DecidableEq

structure DivinationResultDetail where
  playerId : String
  targetPlayerId : String
  result : OracleResult
deriving Repr, DecidableEq

structure MediumResultDetail where
  playerId : String
  targetPlayerId : String
  result : OracleResult
deriving Repr, DecidableEq

structure ProtectionResult where
  playerId : String
  targetPlayerId : String
  success : Bool
deriving Repr, DecidableEq

structure NightResult where
  deaths : List String
  hunterVictims : List String
  divinationResults : List (String × DivinationResultDetail)
  mediumResults : List (String × MediumResultDetail)
  protectionResults : List (String × ProtectionResult)
deriving Repr, DecidableEq

/-- NightResolver.resolveDivinations: oracle verdict per submitted seer
action whose target has an assigned role. -/
def resolveDivinations (state : GameState) (actions : NightActionsE) :
    List (String × DivinationResultDetail) :=
  actions.divinations.foldl
    (fun results pr =>
      match mapGet state.roleAssignments pr.2 with
      | none => results
      | some targetRole =>
        mapSet results pr.1 ⟨pr.1, pr.2, getDivinationResult targetRole⟩)
    []

/-- NightResolver.resolveProtections: the set of guarded target ids. -/
def resolveProtections (actions : NightActionsE) : List String :=
  actions.protections.map (·.2)

/-- NightResolver.resolveAttack: the single attack target dies unless
protected or not alive; per-guardian success is recorded against the actual
target; an attacked CAT retaliates with one seeded draw among the other live
players. -/
def resolveAttack (state : GameState) (actions : NightActionsE)
    (protectedPlayers : List String) :
    List String × List (String × ProtectionResult) :=
  match actions.attack with
  | none => ([], [])
  | some targetId =>
    let wasProtected := targetId ∈ protectedPlayers
    let protectionResults := actions.protections.foldl
      (fun m pr => mapSet m pr.1 ⟨pr.1, pr.2, pr.2 == targetId⟩) []
    let deaths :=
      if ¬ wasProtected ∧ targetId ∈ state.alivePlayers then
        if mapGet state.roleAssignments targetId = some Role.CAT then
          let rng := SeededRNG.init (state.seeds.turns + state.dayNumber + 1000)
          let alivePlayers := state.alivePlayers.filter
            (fun id => id ≠ targetId ∧ id ∉ [targetId])
          match rng.choice alivePlayers with
          | some (retaliationVictim, _) => [targetId, retaliationVictim]
          | none => [targetId]
        else [targetId]
      else []
    (deaths, protectionResults)

/-- NightResolver.resolveBetrayer: every live, not-yet-dead BETRAYER dies
when some dead player of this cycle held the FOX role. -/
def resolveBetrayer (state : GameState) (deaths : List String) : List String :=
  if deaths.any (fun deadId => mapGet state.roleAssignments deadId = some Role.FOX) then
    (state.roleAssignments.filter
      (fun pr => pr.2 = Role.BETRAYER ∧ pr.1 ∈ state.alivePlayers ∧ pr.1 ∉ deaths)).map (·.1)
  else []

/-- NightResolver.resolveHunter: each dead, still-listed-alive HUNTER draws
one seeded victim among the live players not already dead this cycle. -/
def resolveHunter (state : GameState) (deaths : List String) : List String :=
  deaths.foldl
    (fun hunterVictims deadPlayerId =>
      if mapGet state.roleAssignments deadPlayerId = some Role.HUNTER ∧
          deadPlayerId ∈ state.alivePlayers then
        let rng := SeededRNG.init (state.seeds.turns + state.dayNumber + 2000)
        let alivePlayers := state.alivePlayers.filter
          (fun id => id ≠ deadPlayerId ∧ id ∉ deaths ∧ id ∉ hunterVictims)
        match rng.choice alivePlayers with
        | some (victim, _) => hunterVictims ++ [victim]
        | none => hunterVictims
      else hunterVictims)
    []

/-- The live mediums computed by NightResolver.resolveMedium. -/
def livingMediums (state : GameState) : List String :=
  (state.roleAssignments.filter
    (fun pr => pr.2 = Role.MEDIUM ∧ pr.1 ∈ state.alivePlayers)).map (·.1)

/-- NightResolver.resolveMedium: the source computes the live mediums and then
returns the empty map — the body is an explicit placeholder that never
consults the previous execution nor getMediumResult. -/
def resolveMedium (state : GameState) : List (String × MediumResultDetail) :=
  let _mediums := livingMediums state
  []

/-- NightResolver.resolve: divinations, protections, attack, betrayer
cascade, hunter chain, medium, in that order; deaths are concatenated in
trigger order. -/
def nightResolve (state : GameState) (actions : NightActionsE) : NightResult :=
  let divinationResults := resolveDivinations state actions
  let protectedPlayers := resolveProtections actions
  let attackResult := resolveAttack state actions protectedPlayers
  let betrayerDeaths := resolveBetrayer state attackResult.1
  let hunterVictims := resolveHunter state (attackResult.1 ++ betrayerDeaths)
  let mediumResults := resolveMedium state
  let allDeaths := attackResult.1 ++ betrayerDeaths ++ hunterVictims
  ⟨allDeaths, hunterVictims, divinationResults, mediumResults, attackResult.2⟩

/-! ### Fallback engine (packages/llm, ActionFallbackEngine) -/

/-- The character-code sum the fallback engine folds over a string to offset
its seed. -/
def charCodeSum (s : String) : Nat :=
  s.toList.foldl (fun acc c => acc + c.toNat) 0

/-- ActionFallbackEngine.randomTarget: a seeded draw among the live players
other than the actor (optionally excluding wolves), falling back to the actor
itself when nobody else is available. -/
def randomTarget (state : GameState) (playerId : String) (action : String)
    (excludeWolves : Bool) : String :=
  let rng := SeededRNG.init
    (state.seeds.turns + state.dayNumber + charCodeSum playerId + charCodeSum action)
  let candidates := state.alivePlayers.filter (fun id => id ≠ playerId)
  let candidates :=
    if excludeWolves then
      candidates.filter (fun id =>
        mapGet state.roleAssignments id ≠ some Role.WEREWOLF ∧
        mapGet state.roleAssignments id ≠ some Role.WHITE_WOLF)
    else candidates
  let candidates := if candidates.isEmpty then [playerId] else candidates
  match rng.choice candidates with
  | some (target, _) => target
  | none => playerId

/-- ActionFallbackEngine.generateFallbackVote: the most recently stated
suspicion when present, otherwise a seeded random target. -/
def generateFallbackVote (state : GameState) (playerId : String) : String :=
  match (state.players.find? (fun p => p.id == playerId)).bind (·.lastBelief) with
  | some suspectId => suspectId
  | none => randomTarget state playerId "vote" false

/-! ### Concrete states used to instantiate the theorems -/

/-- Day-vote state in which the resolved execution target is the hunter:
three villagers all vote for the hunter, who votes back. -/
def exC1 : GameState :=
  { phase := .DAY_VOTE, dayNumber := 1,
    players := [⟨"h", true, none⟩, ⟨"v1", true, none⟩, ⟨"v2", true, none⟩, ⟨"v3", true, none⟩],
    alivePlayers := ["h", "v1", "v2", "v3"],
    roleAssignments := [("h", .HUNTER), ("v1", .VILLAGER), ("v2", .VILLAGER), ("v3", .VILLAGER)],
    seeds := ⟨0, 0, 0, 0, 0⟩,
    votes := [("v1", "h"), ("v2", "h"), ("v3", "h"), ("h", "v1")],
    deaths := [], tiedPlayers := none, executedPlayerId := none }

/-- Night state for the protection scenario: a knight, the attack target and
a werewolf. -/
def exC3 : GameState :=
  { phase := .NIGHT_ACTIONS, dayNumber := 1,
    players := [⟨"g", true, none⟩, ⟨"X", true, none⟩, ⟨"w", true, none⟩],
    alivePlayers := ["g", "X", "w"],
    roleAssignments := [("g", .KNIGHT), ("X", .VILLAGER), ("w", .WEREWOLF)],
    seeds := ⟨0, 0, 0, 0, 0⟩,
    votes := [], deaths := [], tiedPlayers := none, executedPlayerId := none }

/-- Night actions for the protection scenario: the knight guards the attack
target. -/
def exC3a : NightActionsE := ⟨[], [("g", "X")], some "X"⟩

/-- Night state with a living medium and a werewolf executed on the previous
day. -/
def exC4 : GameState :=
  { phase := .NIGHT_ACTIONS, dayNumber := 2,
    players := [⟨"m", true, none⟩, ⟨"e", false, none⟩, ⟨"w", true, none⟩],
    alivePlayers := ["m", "w"],
    roleAssignments := [("m", .MEDIUM), ("e", .WEREWOLF), ("w", .WEREWOLF)],
    seeds := ⟨0, 0, 0, 0, 0⟩,
    votes := [], deaths := [⟨"e", 2, .EXECUTED⟩], tiedPlayers := none,
    executedPlayerId := some "e" }

/-- Day-vote state with three live players and one submitted vote. -/
def exC6 : GameState :=
  { phase := .DAY_VOTE, dayNumber := 2,
    players := [⟨"A", true, none⟩, ⟨"B", true, none⟩, ⟨"C", true, none⟩],
    alivePlayers := ["A", "B", "C"],
    roleAssignments := [("A", .VILLAGER), ("B", .WEREWOLF), ("C", .SEER)],
    seeds := ⟨0, 0, 0, 9, 0⟩,
    votes := [("A", "B")],
    deaths := [], tiedPlayers := none, executedPlayerId := none }

/-- Day-vote state in which the nonvoter p1 has a stated suspicion of the
dead player p3. -/
def exC7 : GameState :=
  { phase := .DAY_VOTE, dayNumber := 1,
    players := [⟨"p1", true, some "p3"⟩, ⟨"p2", true, none⟩, ⟨"p3", false, none⟩],
    alivePlayers := ["p1", "p2"],
    roleAssignments := [("p1", .VILLAGER), ("p2", .VILLAGER), ("p3", .VILLAGER)],
    seeds := ⟨0, 0, 0, 7, 0⟩,
    votes := [], deaths := [], tiedPlayers := none, executedPlayerId := none }

/-- Day-vote state with a three-way cyclic tie (spec scenario 1). -/
def exC8 : GameState :=
  { phase := .DAY_VOTE, dayNumber := 1,
    players := [⟨"A", true, none⟩, ⟨"B", true, none⟩, ⟨"C", true, none⟩],
    alivePlayers := ["A", "B", "C"],
    roleAssignments := [("A", .VILLAGER), ("B", .VILLAGER), ("C", .VILLAGER)],
    seeds := ⟨0, 0, 0, 5, 0⟩,
    votes := [("A", "B"), ("B", "C"), ("C", "A")],
    deaths := [], tiedPlayers := none, executedPlayerId := none }

/-- The finalized vote result of the cyclic-tie state. -/
def rC8 : VoteResult :=
  ⟨"B", [("A", "B"), ("B", "C"), ("C", "A")], [("B", 1), ("C", 1), ("A", 1)], true⟩

/-- The finalized vote result of the exC6 state: B and C do not vote and
receive synthesized votes. -/
def rC6 : VoteResult :=
  ⟨"B", [("A", "B"), ("B", "A"), ("C", "B")], [("B", 2), ("A", 1)], false⟩

/-- State with a single live player and no submitted votes: nothing can be
synthesized. -/
def exC10 : GameState :=
  { phase := .DAY_VOTE, dayNumber := 1,
    players := [⟨"a", true, none⟩],
    alivePlayers := ["a"],
    roleAssignments := [("a", .VILLAGER)],
    seeds := ⟨0, 0, 0, 0, 0⟩,
    votes := [], deaths := [], tiedPlayers := none, executedPlayerId := none }

/-- State in which every player is dead but roles remain assigned. -/
def exC2dead : GameState :=
  { phase := .CHECK_END, dayNumber := 3,
    players := [⟨"a", false, none⟩, ⟨"b", false, none⟩],
    alivePlayers := [],
    roleAssignments := [("a", .WEREWOLF), ("b", .VILLAGER)],
    seeds := ⟨0, 0, 0, 0, 0⟩,
    votes := [], deaths := [], tiedPlayers := none, executedPlayerId := none }

/-- Live state for the victory-rule witness: one werewolf against one
villager and one seer. -/
def exC2live : GameState :=
  { phase := .CHECK_END, dayNumber := 3,
    players := [⟨"a", true, none⟩, ⟨"b", true, none⟩, ⟨"c", true, none⟩],
    alivePlayers := ["a", "b", "c"],
    roleAssignments := [("a", .WEREWOLF), ("b", .VILLAGER), ("c", .SEER)],
    seeds := ⟨0, 0, 0, 0, 0⟩,
    votes := [], deaths := [], tiedPlayers := none, executedPlayerId := none }

/-! ### Lemmas on the role builder -/

theorem replaceFirst_length {l l' : List Role} {o n : Role}
    (h : replaceFirst l o n = some l') : l'.length = l.length := by
  induction l generalizing l' with
  | nil => simp [replaceFirst] at h
  | cons r rest ih =>
    simp only [replaceFirst] at h
    split at h
    · cases h; simp
    · obtain ⟨l'', h1, h2⟩ := Option.map_eq_some'.mp h
      subst h2
      simp [ih h1]

theorem foldlM_replaceFirst_length (prs : List (Role × Role)) :
    ∀ l l', prs.foldlM (fun acc pr => replaceFirst acc pr.1 pr.2) l = some l' →
      l'.length = l.length := by
  induction prs with
  | nil =>
    intro l l' h
    simp only [List.foldlM_nil] at h
    cases h; rfl
  | cons pr rest ih =>
    intro l l' h
    rw [List.foldlM_cons] at h
    cases hr : replaceFirst l pr.1 pr.2 with
    | none => rw [hr] at h; simp at h
    | some l1 =>
      rw [hr] at h
      simp only [Option.bind_eq_bind, Option.some_bind] at h
      exact (ih l1 l' h).trans (replaceFirst_length hr)

theorem applyPackSubstitution_length {roles roles' : List Role} {p : Pack}
    (h : applyPackSubstitution roles p = some roles') :
    roles'.length = roles.length :=
  foldlM_replaceFirst_length _ _ _ h

theorem foldlM_applyPack_length (packs : List Pack) :
    ∀ l r, packs.foldlM (fun roles p => applyPackSubstitution roles p) l = some r →
      r.length = l.length := by
  induction packs with
  | nil =>
    intro l r h
    simp only [List.foldlM_nil] at h
    cases h; rfl
  | cons p rest ih =>
    intro l r h
    rw [List.foldlM_cons] at h
    cases hp : applyPackSubstitution l p with
    | none => rw [hp] at h; simp at h
    | some l1 =>
      rw [hp] at h
      simp only [Option.bind_eq_bind, Option.some_bind] at h
      exact (ih l1 r h).trans (applyPackSubstitution_length hp)

theorem substAll_length {packs : List Pack} {r : List Role}
    (h : substAll packs = some r) : r.length = 11 :=
  foldlM_applyPack_length packs BASE_ROLES_11 r h

theorem dedup_length_eq_iff {l : List Pack} :
    l.dedup.length = l.length ↔ l.Nodup := by
  constructor
  · intro h
    have hsub := List.dedup_sublist l
    rw [← hsub.eq_of_length h]
    exact List.nodup_dedup l
  · intro h
    rw [List.dedup_eq_self.mpr h]

theorem validatePacks_iff (packs : List Pack) :
    validatePacks packs = true ↔
      (packs.Nodup
       ∧ (packs.filter (fun p => hasConstraint p .THIRD_PARTY_EXCLUSIVE)).length ≤ 1
       ∧ (packs.filter (fun p => hasConstraint p .JUDGMENT_EXCLUSIVE)).length ≤ 1) := by
  unfold validatePacks
  rw [Bool.and_eq_true, Bool.and_eq_true, beq_iff_eq, decide_eq_true_eq, decide_eq_true_eq,
    dedup_length_eq_iff]
  tauto

/-- C5.  Role builder contract: buildRoles rejects exactly the pack lists with
a duplicate pack, more than one THIRD_PARTY_EXCLUSIVE pack, more than one
JUDGMENT_EXCLUSIVE pack, or a pack whose declared role to replace is absent
from the multiset at its turn; on every other list it returns the result of
replacing, pack by pack in list order, the declared base-role occurrences by
the declared new roles, and that result always has exactly 11 roles. -/
theorem buildRoles_contract (packs : List Pack) :
    ((∃ e, buildRoles packs = .error e) ↔
      (¬ packs.Nodup
       ∨ 1 < (packs.filter (fun p => hasConstraint p .THIRD_PARTY_EXCLUSIVE)).length
       ∨ 1 < (packs.filter (fun p => hasConstraint p .JUDGMENT_EXCLUSIVE)).length
       ∨ substAll packs = none))
    ∧ (∀ roles, buildRoles packs = .ok roles →
        substAll packs = some roles ∧ roles.length = 11) := by
  by_cases hv : validatePacks packs = true
  · obtain ⟨hnd, htp, hje⟩ := (validatePacks_iff packs).mp hv
    cases hs : substAll packs with
    | none =>
      refine ⟨⟨fun _ => Or.inr (Or.inr (Or.inr rfl)), fun _ => ?_⟩, fun roles hr => ?_⟩
      · exact ⟨"Cannot apply pack: role to replace not found", by
          simp [buildRoles, hv, hs]⟩
      · simp [buildRoles, hv, hs] at hr
    | some r =>
      have hlen : r.length = 11 := substAll_length hs
      have hok : buildRoles packs = .ok r := by
        simp [buildRoles, hv, hs, hlen]
      refine ⟨⟨fun ⟨e, he⟩ => ?_, fun hdis => ?_⟩, fun roles hr => ?_⟩
      · rw [hok] at he; cases he
      · rcases hdis with h | h | h | h
        · exact absurd hnd h
        · omega
        · omega
        · simp at h
      · rw [hok] at hr
        cases hr
        exact ⟨by simp, hlen⟩
  · have hinv : buildRoles packs = .error "Invalid pack combination" := by
      simp [buildRoles, hv]
    have hcond : ¬ (packs.Nodup
        ∧ (packs.filter (fun p => hasConstraint p .THIRD_PARTY_EXCLUSIVE)).length ≤ 1
        ∧ (packs.filter (fun p => hasConstraint p .JUDGMENT_EXCLUSIVE)).length ≤ 1) :=
      fun hc => hv ((validatePacks_iff packs).mpr hc)
    refine ⟨⟨fun _ => ?_, fun _ => ⟨"Invalid pack combination", hinv⟩⟩, fun roles hr => ?_⟩
    · by_cases h1 : packs.Nodup
      · by_cases h2 :
          (packs.filter (fun p => hasConstraint p .THIRD_PARTY_EXCLUSIVE)).length ≤ 1
        · by_cases h3 :
            (packs.filter (fun p => hasConstraint p .JUDGMENT_EXCLUSIVE)).length ≤ 1
          · exact absurd ⟨h1, h2, h3⟩ hcond
          · exact Or.inr (Or.inr (Or.inl (by omega)))
        · exact Or.inr (Or.inl (by omega))
      · exact Or.inl h1
    · rw [hinv] at hr; cases hr

/-- Witness for C5: the FOX pack then the HUNTER pack replace two plain
villagers, leaving 11 roles with one fox, one hunter and three villagers. -/
theorem buildRoles_contract_witness :
    substAll [Pack.FOX, Pack.HUNTER] =
      some [.WEREWOLF, .WEREWOLF, .SEER, .MEDIUM, .MADMAN, .KNIGHT,
            .FOX, .HUNTER, .VILLAGER, .VILLAGER, .VILLAGER]
    ∧ ([Role.WEREWOLF, .WEREWOLF, .SEER, .MEDIUM, .MADMAN, .KNIGHT,
        .FOX, .HUNTER, .VILLAGER, .VILLAGER, .VILLAGER]).length = 11 :=
  (buildRoles_contract [Pack.FOX, Pack.HUNTER]).2 _ (by rfl)

/-- C9.  The transition table maps (LAST_WILL, LAST_WILL_COMPLETE) to
CHECK_END as claimed, but it has no entry for (CHECK_END, START_NIGHT):
isValidTransition rejects that pair and getNextPhase returns none there,
while START_NIGHT is accepted from DAY_VOTE and DAY_REVOTE instead — the
handler registry nevertheless registers a CHECK_END plus START_NIGHT handler
that moves to NIGHT_WOLF_CHAT, so the table contradicts the intended flow. -/
theorem transition_table_start_night :
    getNextPhase .LAST_WILL .LAST_WILL_COMPLETE = some .CHECK_END
    ∧ isValidTransition .LAST_WILL .LAST_WILL_COMPLETE = true
    ∧ getNextPhase .CHECK_END .START_NIGHT = none
    ∧ isValidTransition .CHECK_END .START_NIGHT = false
    ∧ getNextPhase .DAY_VOTE .START_NIGHT = some .NIGHT_WOLF_CHAT
    ∧ getNextPhase .DAY_REVOTE .START_NIGHT = some .NIGHT_WOLF_CHAT := by
  decide
/-! ### Lemmas on the association-list map -/

theorem mapGet_nil {α : Type} (k : String) : mapGet ([] : List (String × α)) k = none := rfl

theorem mapGet_cons {α : Type} (p : String × α) (m : List (String × α)) (k : String) :
    mapGet (p :: m) k = if p.1 = k then some p.2 else mapGet m k := by
  simp [mapGet]

theorem mapHas_eq_isSome {α : Type} (m : List (String × α)) (k : String) :
    mapHas m k = (mapGet m k).isSome := rfl

theorem mapGet_append_of_some {α : Type} {m : List (String × α)} {k : String} {v : α}
    (h : mapGet m k = some v) (l : List (String × α)) : mapGet (m ++ l) k = some v := by
  induction m with
  | nil => simp [mapGet_nil] at h
  | cons p rest ih =>
    rw [mapGet_cons] at h
    rw [List.cons_append, mapGet_cons]
    split at h
    · rename_i hp
      rw [if_pos hp]
      exact h
    · rename_i hp
      rw [if_neg hp]
      exact ih h

theorem mapGet_append_of_none {α : Type} {m : List (String × α)} {k : String}
    (h : mapGet m k = none) (l : List (String × α)) :
    mapGet (m ++ l) k = mapGet l k := by
  induction m with
  | nil => rfl
  | cons p rest ih =>
    rw [mapGet_cons] at h
    rw [List.cons_append, mapGet_cons]
    split at h
    · cases h
    · rename_i hp
      rw [if_neg hp]
      exact ih h

theorem mapGet_mapSet_self {α : Type} (m : List (String × α)) (k : String) (v : α) :
    mapGet (mapSet m k v) k = some v := by
  induction m with
  | nil => simp [mapSet, mapGet]
  | cons p rest ih =>
    by_cases hp : p.1 = k
    · simp [mapSet, hp, mapGet]
    · simp [mapSet, hp, mapGet, ih]

theorem mapGet_mapSet_ne {α : Type} (m : List (String × α)) (k k' : String) (v : α)
    (hne : k' ≠ k) : mapGet (mapSet m k v) k' = mapGet m k' := by
  have hkk : k ≠ k' := fun h => hne h.symm
  induction m with
  | nil => simp [mapSet, mapGet, hkk]
  | cons p rest ih =>
    by_cases hp : p.1 = k
    · simp [mapSet, hp, mapGet, hkk]
    · by_cases hp' : p.1 = k'
      · simp [mapSet, hp, mapGet, hp', hne]
      · simp [mapSet, hp, mapGet, hp', ih]

theorem mapHas_false_get_none {α : Type} {m : List (String × α)} {k : String}
    (h : mapHas m k = false) : mapGet m k = none := by
  rw [mapHas_eq_isSome] at h
  cases hg : mapGet m k
  · rfl
  · rw [hg] at h; simp at h

/-- Keys of the map as membership of mapGet. -/
theorem mapGet_isSome_iff_mem_keys {α : Type} (m : List (String × α)) (k : String) :
    (mapGet m k).isSome ↔ k ∈ m.map Prod.fst := by
  induction m with
  | nil => simp [mapGet_nil]
  | cons p rest ih =>
    rw [mapGet_cons, List.map_cons, List.mem_cons]
    by_cases hp : p.1 = k
    · simp [hp]
    · simp only [if_neg hp]
      rw [ih]
      constructor
      · exact Or.inr
      · rintro (h | h)
        · exact absurd h.symm hp
        · exact h

/-- mapSet of an absent key appends the fresh entry at the end. -/
theorem mapSet_absent {α : Type} {m : List (String × α)} {k : String} (v : α)
    (h : mapGet m k = none) : mapSet m k v = m ++ [(k, v)] := by
  induction m with
  | nil => simp [mapSet]
  | cons p rest ih =>
    rw [mapGet_cons] at h
    split at h
    · cases h
    · rename_i hp
      simp [mapSet, hp, ih h]

/-- Keys after mapSet: the set key joins the existing keys. -/
theorem mapSet_keys {α : Type} (m : List (String × α)) (k : String) (v : α) :
    ∀ k', (mapGet (mapSet m k v) k').isSome ↔ k' = k ∨ (mapGet m k').isSome := by
  intro k'
  by_cases hk : k' = k
  · subst hk
    simp [mapGet_mapSet_self]
  · rw [mapGet_mapSet_ne m k k' v hk]
    simp [hk]

/-! ### Lemmas on the seeded choice -/

theorem choice_none_imp {r : SeededRNG} {xs : List String}
    (h : r.choice xs = none) : xs = [] := by
  cases xs with
  | nil => rfl
  | cons a rest => simp [SeededRNG.choice] at h

theorem choice_mem {r : SeededRNG} {xs : List String} {x : String} {r' : SeededRNG}
    (h : r.choice xs = some (x, r')) : x ∈ xs := by
  cases xs with
  | nil => simp [SeededRNG.choice] at h
  | cons a rest =>
    simp only [SeededRNG.choice, Option.some.injEq, Prod.mk.injEq] at h
    obtain ⟨h1, _⟩ := h
    subst h1
    rw [List.getD_eq_getElem?_getD]
    cases hg : (a :: rest)[r.state % (a :: rest).length]? with
    | none => simp [List.mem_cons]
    | some y =>
      obtain ⟨hlt, he⟩ := List.getElem?_eq_some.mp hg
      subst he
      exact List.getElem_mem hlt

/-! ### Invariants of the vote-fallback fold -/

/-- Case analysis of fillStep: either the voter already has a vote, or there
is no valid target, or one seeded target is appended. -/
theorem fillStep_cases (aliveAll : List String)
    (acc : List (String × String) × SeededRNG) (a : String) :
    (mapHas acc.1 a = true ∧ fillStep aliveAll acc a = acc)
    ∨ (mapHas acc.1 a = false
        ∧ aliveAll.filter (fun id => id ≠ a) = []
        ∧ fillStep aliveAll acc a = acc)
    ∨ (∃ t r, mapHas acc.1 a = false
        ∧ acc.2.choice (aliveAll.filter (fun id => id ≠ a)) = some (t, r)
        ∧ t ∈ aliveAll ∧ t ≠ a
        ∧ fillStep aliveAll acc a = (mapSet acc.1 a t, r)) := by
  by_cases hh : mapHas acc.1 a
  · left
    refine ⟨hh, ?_⟩
    unfold fillStep
    rw [if_pos hh]
  · cases hc : acc.2.choice (aliveAll.filter (fun id => id ≠ a)) with
    | none =>
      right; left
      refine ⟨by simpa using hh, choice_none_imp hc, ?_⟩
      unfold fillStep
      rw [if_neg hh]
      show (match acc.2.choice (aliveAll.filter (fun id => id ≠ a)) with
            | some (target, rng) => (mapSet acc.1 a target, rng)
            | none => acc) = acc
      rw [hc]
    | some pr =>
      obtain ⟨t, r⟩ := pr
      right; right
      have hmem := choice_mem hc
      rw [List.mem_filter] at hmem
      refine ⟨t, r, by simpa using hh, rfl, hmem.1, by simpa using hmem.2, ?_⟩
      unfold fillStep
      rw [if_neg hh]
      show (match acc.2.choice (aliveAll.filter (fun id => id ≠ a)) with
            | some (target, rng) => (mapSet acc.1 a target, rng)
            | none => acc) = (mapSet acc.1 a t, r)
      rw [hc]

theorem fillFold_preserve (aliveAll : List String) (l : List String) :
    ∀ (acc : List (String × String) × SeededRNG) (k v : String),
      mapGet acc.1 k = some v →
      mapGet (l.foldl (fillStep aliveAll) acc).1 k = some v := by
  induction l with
  | nil => intro acc k v h; simpa using h
  | cons a rest ih =>
    intro acc k v h
    rw [List.foldl_cons]
    apply ih
    rcases fillStep_cases aliveAll acc a with ⟨_, he⟩ | ⟨_, _, he⟩ | ⟨t, r, hh, _, _, _, he⟩
    · rw [he]; exact h
    · rw [he]; exact h
    · have hka : k ≠ a := by
        intro hx
        subst hx
        rw [mapHas_eq_isSome, h] at hh
        simp at hh
      rw [he]
      show mapGet (mapSet acc.1 a t) k = some v
      rw [mapGet_mapSet_ne acc.1 a k t hka]
      exact h

theorem fillFold_has_mono (aliveAll : List String) (l : List String)
    (acc : List (String × String) × SeededRNG) (k : String)
    (h : mapHas acc.1 k = true) :
    mapHas (l.foldl (fillStep aliveAll) acc).1 k = true := by
  rw [mapHas_eq_isSome] at h
  cases hg : mapGet acc.1 k with
  | none => rw [hg] at h; simp at h
  | some v =>
    rw [mapHas_eq_isSome, fillFold_preserve aliveAll l acc k v hg]
    rfl

theorem fillFold_covers (aliveAll : List String) (l : List String) :
    ∀ (acc : List (String × String) × SeededRNG) (p : String), p ∈ l →
      (∃ q ∈ aliveAll, q ≠ p) →
      mapHas (l.foldl (fillStep aliveAll) acc).1 p = true := by
  induction l with
  | nil => intro acc p hp _; cases hp
  | cons a rest ih =>
    intro acc p hp hex
    rw [List.foldl_cons]
    rcases List.mem_cons.mp hp with he | hm
    · subst he
      apply fillFold_has_mono
      rcases fillStep_cases aliveAll acc p with ⟨hh, hs⟩ | ⟨_, hf, _⟩ | ⟨t, r, _, _, _, _, hs⟩
      · rw [hs]; exact hh
      · exfalso
        obtain ⟨q, hq, hqp⟩ := hex
        have hmem : q ∈ aliveAll.filter (fun id => id ≠ p) := by
          simp [List.mem_filter, hq, hqp]
        rw [hf] at hmem
        cases hmem
      · rw [hs]
        show mapHas (mapSet acc.1 p t) p = true
        rw [mapHas_eq_isSome, mapGet_mapSet_self]
        rfl
    · exact ih _ p hm hex

theorem fillFold_keys (aliveAll : List String) (l : List String) :
    ∀ (acc : List (String × String) × SeededRNG) (k : String),
      mapHas (l.foldl (fillStep aliveAll) acc).1 k = true →
      mapHas acc.1 k = true ∨ k ∈ l := by
  induction l with
  | nil => intro acc k h; exact Or.inl (by simpa using h)
  | cons a rest ih =>
    intro acc k h
    rw [List.foldl_cons] at h
    rcases ih _ k h with h1 | h1
    · rcases fillStep_cases aliveAll acc a with ⟨_, hs⟩ | ⟨_, _, hs⟩ | ⟨t, r, _, _, _, _, hs⟩
      · rw [hs] at h1; exact Or.inl h1
      · rw [hs] at h1; exact Or.inl h1
      · rw [hs] at h1
        by_cases hk : k = a
        · exact Or.inr (by simp [hk])
        · rw [show ((mapSet acc.1 a t, r) : List (String × String) × SeededRNG).1
              = mapSet acc.1 a t from rfl] at h1
          rw [mapHas_eq_isSome, mapGet_mapSet_ne acc.1 a k t hk] at h1
          exact Or.inl h1
    · exact Or.inr (List.mem_cons.mpr (Or.inr h1))

theorem fillFold_new_entry (aliveAll : List String) (l : List String) :
    ∀ (acc : List (String × String) × SeededRNG) (p t : String),
      mapGet acc.1 p = none →
      mapGet (l.foldl (fillStep aliveAll) acc).1 p = some t →
      t ∈ aliveAll ∧ t ≠ p := by
  induction l with
  | nil =>
    intro acc p t h0 h1
    rw [List.foldl_nil] at h1
    rw [h0] at h1
    cases h1
  | cons a rest ih =>
    intro acc p t h0 h1
    rw [List.foldl_cons] at h1
    rcases fillStep_cases aliveAll acc a with ⟨hh, hs⟩ | ⟨_, _, hs⟩ | ⟨t0, r0, hh, _, ht0, hta, hs⟩
    · rw [hs] at h1; exact ih _ p t h0 h1
    · rw [hs] at h1; exact ih _ p t h0 h1
    · rw [hs] at h1
      by_cases hpa : p = a
      · subst hpa
        have hget : mapGet (mapSet acc.1 p t0, r0).1 p = some t0 :=
          mapGet_mapSet_self acc.1 p t0
        have hfin := fillFold_preserve aliveAll rest _ p t0 hget
        rw [h1] at hfin
        cases hfin
        exact ⟨ht0, hta⟩
      · have hkeep : mapGet (mapSet acc.1 a t0, r0).1 p = none := by
          show mapGet (mapSet acc.1 a t0) p = none
          rw [mapGet_mapSet_ne acc.1 a p t0 hpa]
          exact h0
        exact ih _ p t hkeep h1

theorem fillFold_nodup (aliveAll : List String) (l : List String) :
    ∀ (acc : List (String × String) × SeededRNG),
      (acc.1.map Prod.fst).Nodup →
      ((l.foldl (fillStep aliveAll) acc).1.map Prod.fst).Nodup := by
  induction l with
  | nil => intro acc h; simpa using h
  | cons a rest ih =>
    intro acc h
    rw [List.foldl_cons]
    apply ih
    rcases fillStep_cases aliveAll acc a with ⟨_, hs⟩ | ⟨_, _, hs⟩ | ⟨t, r, hh, _, _, _, hs⟩
    · rw [hs]; exact h
    · rw [hs]; exact h
    · rw [hs]
      show ((mapSet acc.1 a t).map Prod.fst).Nodup
      have hn : mapGet acc.1 a = none := mapHas_false_get_none hh
      rw [mapSet_absent t hn, List.map_append]
      rw [List.nodup_append]
      refine ⟨h, by simp, ?_⟩
      intro x hx hx'
      simp at hx'
      subst hx'
      have hsome : (mapGet acc.1 x).isSome := (mapGet_isSome_iff_mem_keys acc.1 x).mpr hx
      rw [hn] at hsome
      simp at hsome

theorem fillFold_prefix (aliveAll : List String) (l : List String) :
    ∀ (acc : List (String × String) × SeededRNG),
      ∃ ext, (l.foldl (fillStep aliveAll) acc).1 = acc.1 ++ ext := by
  induction l with
  | nil => exact fun acc => ⟨[], by simp⟩
  | cons a rest ih =>
    intro acc
    rw [List.foldl_cons]
    have hstep : ∃ e0, (fillStep aliveAll acc a).1 = acc.1 ++ e0 := by
      rcases fillStep_cases aliveAll acc a with ⟨_, hs⟩ | ⟨_, _, hs⟩ | ⟨t, r, hh, _, _, _, hs⟩
      · exact ⟨[], by rw [hs]; simp⟩
      · exact ⟨[], by rw [hs]; simp⟩
      · refine ⟨[(a, t)], ?_⟩
        rw [hs]
        show mapSet acc.1 a t = acc.1 ++ [(a, t)]
        exact mapSet_absent t (mapHas_false_get_none hh)
    obtain ⟨e0, h0⟩ := hstep
    obtain ⟨ext, hext⟩ := ih (fillStep aliveAll acc a)
    exact ⟨e0 ++ ext, by rw [hext, h0, List.append_assoc]⟩

/-! ### Lemmas on the vote tally -/

theorem mapIncr_sum (m : List (String × Nat)) (t : String) :
    ((mapIncr m t).map Prod.snd).sum = (m.map Prod.snd).sum + 1 := by
  induction m with
  | nil => simp [mapIncr]
  | cons p rest ih =>
    obtain ⟨k, c⟩ := p
    by_cases hp : k = t
    · simp [mapIncr, hp]
      omega
    · simp [mapIncr, hp, ih]
      omega

theorem countFold_sum (votes : List (String × String)) :
    ∀ acc : List (String × Nat),
      ((votes.foldl (fun c pr => mapIncr c pr.2) acc).map Prod.snd).sum
        = (acc.map Prod.snd).sum + votes.length := by
  induction votes with
  | nil => intro acc; simp
  | cons v rest ih =>
    intro acc
    rw [List.foldl_cons, ih, mapIncr_sum]
    simp
    omega

theorem countVotes_sum (votes : List (String × String)) :
    ((countVotes votes).map Prod.snd).sum = votes.length := by
  unfold countVotes
  rw [countFold_sum]
  simp

theorem countVotes_nil_iff (votes : List (String × String)) :
    countVotes votes = [] ↔ votes = [] := by
  constructor
  · intro h
    have hs := countVotes_sum votes
    rw [h] at hs
    simp at hs
    exact List.length_eq_zero.mp hs.symm
  · rintro rfl
    rfl

theorem foldl_max_le_init (l : List (String × Nat)) :
    ∀ a : Nat, a ≤ l.foldl (fun m pr => Nat.max m pr.2) a := by
  induction l with
  | nil => simp
  | cons p rest ih =>
    intro a
    rw [List.foldl_cons]
    exact le_trans (Nat.le_max_left a p.2) (ih _)

theorem foldl_max_ge (l : List (String × Nat)) :
    ∀ a : Nat, ∀ pr ∈ l, pr.2 ≤ l.foldl (fun m pr => Nat.max m pr.2) a := by
  induction l with
  | nil => intro a pr h; cases h
  | cons p rest ih =>
    intro a pr h
    rw [List.foldl_cons]
    rcases List.mem_cons.mp h with he | hm
    · subst he
      exact le_trans (Nat.le_max_right a pr.2) (foldl_max_le_init rest _)
    · exact ih _ pr hm

theorem maxCount_ge {counts : List (String × Nat)} {pr : String × Nat}
    (h : pr ∈ counts) : pr.2 ≤ maxCount counts :=
  foldl_max_ge counts 0 pr h

theorem foldl_max_attain (l : List (String × Nat)) :
    ∀ a : Nat, l.foldl (fun m pr => Nat.max m pr.2) a = a
      ∨ ∃ pr ∈ l, l.foldl (fun m pr => Nat.max m pr.2) a = pr.2 := by
  induction l with
  | nil => intro a; exact Or.inl rfl
  | cons p rest ih =>
    intro a
    rw [List.foldl_cons]
    rcases ih (Nat.max a p.2) with h | ⟨pr, hm, he⟩
    · rw [h]
      rcases Nat.le_total a p.2 with hle | hle
      · right
        exact ⟨p, List.mem_cons_self p rest, Nat.max_eq_right hle⟩
      · left
        exact Nat.max_eq_left hle
    · right
      exact ⟨pr, List.mem_cons_of_mem p hm, he⟩

theorem maxCount_mem {counts : List (String × Nat)} (h : counts ≠ []) :
    ∃ pr ∈ counts, pr.2 = maxCount counts := by
  rcases foldl_max_attain counts 0 with hz | ⟨pr, hm, he⟩
  · cases counts with
    | nil => exact absurd rfl h
    | cons p rest =>
      refine ⟨p, List.mem_cons_self p rest, ?_⟩
      have h1 : p.2 ≤ maxCount (p :: rest) := maxCount_ge (List.mem_cons_self p rest)
      have h2 : maxCount (p :: rest) = 0 := hz
      omega
  · exact ⟨pr, hm, he.symm⟩

theorem tiedIds_mem {counts : List (String × Nat)} {ex : String}
    (h : ex ∈ tiedIds counts) : (ex, maxCount counts) ∈ counts := by
  unfold tiedIds at h
  obtain ⟨pr, hpr, he⟩ := List.mem_map.mp h
  rw [List.mem_filter] at hpr
  have hv : pr.2 = maxCount counts := by simpa using hpr.2
  have : pr = (ex, maxCount counts) := by
    obtain ⟨a, b⟩ := pr
    simp at he hv
    simp [he, hv]
  rw [← this]
  exact hpr.1

theorem tiedIds_ne_nil {counts : List (String × Nat)} (h : counts ≠ []) :
    tiedIds counts ≠ [] := by
  obtain ⟨pr, hm, he⟩ := maxCount_mem h
  have : pr.1 ∈ tiedIds counts := by
    unfold tiedIds
    exact List.mem_map.mpr ⟨pr, List.mem_filter.mpr ⟨hm, by simp [he]⟩, rfl⟩
  exact List.ne_nil_of_mem this

theorem resolveExecution_spec {counts : List (String × Nat)} (h : counts ≠ [])
    (seed day : Nat) :
    ∃ ex, resolveExecution counts seed day = .ok ex ∧ ex ∈ tiedIds counts := by
  have hne := tiedIds_ne_nil h
  have hempty : counts.isEmpty = false := by simpa [List.isEmpty_iff] using h
  unfold resolveExecution
  rw [hempty]
  simp only [Bool.false_eq_true, if_false]
  cases hcand : tiedIds counts with
  | nil => exact absurd hcand hne
  | cons c cs =>
    cases cs with
    | nil =>
      exact ⟨c, by simp, by simp⟩
    | cons c2 cs2 =>
      cases hch : (SeededRNG.init (seed + day + 1000)).choice (c :: c2 :: cs2) with
      | none => simp [SeededRNG.choice] at hch
      | some pr =>
        obtain ⟨x, r⟩ := pr
        refine ⟨x, ?_, choice_mem hch⟩
        simp [hch]

theorem resolveExecution_unique {counts : List (String × Nat)} {ex : String}
    {seed day : Nat} (h : counts ≠ [])
    (hlen : ¬ 1 < (tiedIds counts).length)
    (hok : resolveExecution counts seed day = .ok ex) :
    tiedIds counts = [ex] := by
  have hne := tiedIds_ne_nil h
  have hempty : counts.isEmpty = false := by simpa [List.isEmpty_iff] using h
  unfold resolveExecution at hok
  rw [hempty] at hok
  simp only [Bool.false_eq_true, if_false] at hok
  cases hcand : tiedIds counts with
  | nil => exact absurd hcand hne
  | cons c cs =>
    cases cs with
    | nil =>
      rw [hcand] at hok
      simp at hok
      rw [hok]
    | cons c2 cs2 =>
      rw [hcand] at hlen
      simp at hlen

/-! ### Lemmas on finalizeVotes -/

theorem finalizeVotes_inv {s : GameState} {votes : List (String × String)}
    {r : VoteResult} (h : finalizeVotes s votes = .ok r) :
    r.votes = fillMissingVotes s votes
    ∧ r.counts = countVotes (fillMissingVotes s votes)
    ∧ resolveExecution (countVotes (fillMissingVotes s votes))
        s.seeds.turns s.dayNumber = .ok r.executedPlayerId := by
  simp only [finalizeVotes] at h
  cases hre : resolveExecution (countVotes (fillMissingVotes s votes))
      s.seeds.turns s.dayNumber with
  | error e => rw [hre] at h; cases h
  | ok ex =>
    rw [hre] at h
    cases h
    exact ⟨rfl, rfl, rfl⟩

theorem finalizeVotes_ok_of_counts {s : GameState} {votes : List (String × String)}
    (h : countVotes (fillMissingVotes s votes) ≠ []) :
    ∃ r, finalizeVotes s votes = .ok r := by
  obtain ⟨ex, hex, _⟩ := resolveExecution_spec h s.seeds.turns s.dayNumber
  refine ⟨⟨ex, fillMissingVotes s votes, countVotes (fillMissingVotes s votes),
    hasTie (countVotes (fillMissingVotes s votes))⟩, ?_⟩
  simp only [finalizeVotes]
  rw [hex]

/-- C10.  finalizeVotes is partial exactly at the empty boundary: with no
submitted votes and fewer than two live players the completed vote map is
empty and finalizeVotes fails with the no-votes error; in every other case it
returns a result whose executedPlayerId carries a maximum per-target count. -/
theorem finalizeVotes_empty_boundary (s : GameState)
    (hA : s.alivePlayers.Nodup) :
    (s.votes = [] ∧ s.alivePlayers.length < 2 →
       fillMissingVotes s s.votes = []
       ∧ finalizeVotes s s.votes = .error "No votes to resolve")
    ∧ (s.votes ≠ [] ∨ 2 ≤ s.alivePlayers.length →
       ∃ r, finalizeVotes s s.votes = .ok r
         ∧ (r.executedPlayerId, maxCount r.counts) ∈ r.counts
         ∧ ∀ pr ∈ r.counts, pr.2 ≤ maxCount r.counts) := by
  constructor
  · rintro ⟨hv, hlen⟩
    have hfill : fillMissingVotes s s.votes = [] := by
      rw [hv]
      unfold fillMissingVotes
      cases halive : s.alivePlayers with
      | nil => rfl
      | cons p ps =>
        cases ps with
        | nil =>
          simp [fillStep, mapHas, mapGet, SeededRNG.choice]
        | cons q qs =>
          rw [halive] at hlen
          simp at hlen
          omega
    refine ⟨hfill, ?_⟩
    simp only [finalizeVotes, hfill]
    rfl
  · intro hcase
    have hfillne : fillMissingVotes s s.votes ≠ [] := by
      rcases hcase with hv | hlen
      · obtain ⟨ext, hext⟩ := fillFold_prefix s.alivePlayers s.alivePlayers
          (s.votes, SeededRNG.init (s.seeds.turns + s.dayNumber))
        unfold fillMissingVotes
        rw [hext]
        intro hf
        exact hv (List.append_eq_nil.mp hf).1
      · cases halive : s.alivePlayers with
        | nil => rw [halive] at hlen; simp at hlen
        | cons a t =>
          cases t with
          | nil => rw [halive] at hlen; simp at hlen
          | cons b rest =>
            have hab : a ≠ b := by
              rw [halive] at hA
              intro he
              subst he
              simp [List.nodup_cons] at hA
            have hcov := fillFold_covers s.alivePlayers s.alivePlayers
              (s.votes, SeededRNG.init (s.seeds.turns + s.dayNumber)) a
              (by rw [halive]; exact List.mem_cons_self a (b :: rest))
              ⟨b, by rw [halive]; simp, fun he => hab he.symm⟩
            intro hf
            unfold fillMissingVotes at hf
            rw [hf] at hcov
            simp [mapHas, mapGet] at hcov
    have hcne : countVotes (fillMissingVotes s s.votes) ≠ [] := by
      intro h
      exact hfillne ((countVotes_nil_iff _).mp h)
    obtain ⟨ex, hex, hmem⟩ := resolveExecution_spec hcne s.seeds.turns s.dayNumber
    refine ⟨⟨ex, fillMissingVotes s s.votes, countVotes (fillMissingVotes s s.votes),
      hasTie (countVotes (fillMissingVotes s s.votes))⟩, ?_, ?_, ?_⟩
    · simp only [finalizeVotes]
      rw [hex]
    · exact tiedIds_mem hmem
    · intro pr hpr
      exact maxCount_ge hpr

/-- Witness for C10: one live player and no submitted votes make finalize
fail with the no-votes error. -/
theorem finalizeVotes_empty_boundary_witness :
    fillMissingVotes exC10 exC10.votes = []
    ∧ finalizeVotes exC10 exC10.votes = .error "No votes to resolve" :=
  (finalizeVotes_empty_boundary exC10 (by decide)).1 (by decide)

/-- C6.  Vote completeness: when every submitted vote comes from a live
voter, a successful finalize records exactly one vote per live player, and
the per-target counts sum to the number of live players. -/
theorem vote_completeness (s : GameState) (r : VoteResult)
    (hA : s.alivePlayers.Nodup)
    (hK : (s.votes.map Prod.fst).Nodup)
    (hV : ∀ pr ∈ s.votes, pr.1 ∈ s.alivePlayers)
    (hok : finalizeVotes s s.votes = .ok r) :
    (∀ p ∈ s.alivePlayers, (r.votes.map Prod.fst).count p = 1)
    ∧ (r.counts.map Prod.snd).sum = s.alivePlayers.length := by
  obtain ⟨hrv, hrc, hre⟩ := finalizeVotes_inv hok
  have hnod : ((fillMissingVotes s s.votes).map Prod.fst).Nodup := by
    unfold fillMissingVotes
    exact fillFold_nodup s.alivePlayers s.alivePlayers _ hK
  have hmemiff : ∀ k, k ∈ (fillMissingVotes s s.votes).map Prod.fst ↔
      k ∈ s.alivePlayers := by
    intro k
    constructor
    · intro hk
      have hh : mapHas (fillMissingVotes s s.votes) k = true := by
        rw [mapHas_eq_isSome]
        exact (mapGet_isSome_iff_mem_keys _ k).mpr hk
      unfold fillMissingVotes at hh
      rcases fillFold_keys s.alivePlayers s.alivePlayers _ k hh with h1 | h1
      · have hks : k ∈ s.votes.map Prod.fst := by
          rw [mapHas_eq_isSome] at h1
          exact (mapGet_isSome_iff_mem_keys _ k).mp (by simpa using h1)
        obtain ⟨pr, hpr, he⟩ := List.mem_map.mp hks
        rw [← he]
        exact hV pr hpr
      · exact h1
    · intro hk
      by_cases h2 : ∃ q ∈ s.alivePlayers, q ≠ k
      · have hcov := fillFold_covers s.alivePlayers s.alivePlayers
          (s.votes, SeededRNG.init (s.seeds.turns + s.dayNumber)) k hk h2
        rw [mapHas_eq_isSome] at hcov
        exact (mapGet_isSome_iff_mem_keys _ k).mp (by
          unfold fillMissingVotes
          simpa using hcov)
      · push_neg at h2
        have halive : s.alivePlayers = [k] := by
          cases halive : s.alivePlayers with
          | nil => rw [halive] at hk; cases hk
          | cons a t =>
            have ha : a = k := h2 a (by rw [halive]; exact List.mem_cons_self a t)
            have ht : t = [] := by
              rw [halive] at hA
              rw [List.nodup_cons] at hA
              cases t with
              | nil => rfl
              | cons b u =>
                have hb : b = k := h2 b (by rw [halive]; simp)
                exfalso
                apply hA.1
                rw [ha, ← hb]
                simp
            rw [ha, ht]
        cases hg : mapGet s.votes k with
        | some v =>
          have hpres := fillFold_preserve s.alivePlayers s.alivePlayers
            (s.votes, SeededRNG.init (s.seeds.turns + s.dayNumber)) k v hg
          apply (mapGet_isSome_iff_mem_keys _ k).mp
          unfold fillMissingVotes
          rw [hpres]
          rfl
        | none =>
          exfalso
          have hv : s.votes = [] := by
            cases hv0 : s.votes with
            | nil => rfl
            | cons pr rest =>
              have hpr1 : pr.1 ∈ s.alivePlayers :=
                hV pr (by rw [hv0]; exact List.mem_cons_self pr rest)
              rw [halive] at hpr1
              have hprk : pr.1 = k := by simpa using hpr1
              rw [hv0, mapGet_cons, hprk] at hg
              simp at hg
          have hfill : fillMissingVotes s s.votes = [] := by
            rw [hv]
            unfold fillMissingVotes
            rw [halive]
            simp [fillStep, mapHas, mapGet, SeededRNG.choice]
          rw [hfill] at hre
          simp [countVotes, resolveExecution] at hre
  refine ⟨?_, ?_⟩
  · intro p hp
    rw [hrv]
    exact List.count_eq_one_of_mem hnod ((hmemiff p).mpr hp)
  · have hperm : List.Perm ((fillMissingVotes s s.votes).map Prod.fst) s.alivePlayers :=
      (List.perm_ext_iff_of_nodup hnod hA).mpr hmemiff
    have hlen : (fillMissingVotes s s.votes).length = s.alivePlayers.length := by
      have := hperm.length_eq
      simpa using this
    rw [hrc, countVotes_sum, hlen]

/-- Witness for C6: in the exC6 state the two nonvoters receive synthesized
votes and the counts sum to three. -/
theorem vote_completeness_witness :
    (∀ p ∈ exC6.alivePlayers, (rC6.votes.map Prod.fst).count p = 1)
    ∧ (rC6.counts.map Prod.snd).sum = exC6.alivePlayers.length :=
  vote_completeness exC6 rC6 (by decide) (by decide) (by decide) (by rfl)

/-- C7 (amended).  The collector synthesizes, for every live player without a
submitted vote, a seeded-random choice among the live players other than the
voter, never altering submitted votes; it does not consult stated suspicions.
The suspicion-preference policy lives upstream in
ActionFallbackEngine.generateFallbackVote, which returns the most recently
stated suspicion whenever one is present. -/
theorem fillMissingVotes_policy (s : GameState) :
    (∀ k v, mapGet s.votes k = some v →
       mapGet (fillMissingVotes s s.votes) k = some v)
    ∧ (∀ p ∈ s.alivePlayers, mapGet s.votes p = none →
        (∃ q ∈ s.alivePlayers, q ≠ p) →
        ∃ t, mapGet (fillMissingVotes s s.votes) p = some t
          ∧ t ∈ s.alivePlayers ∧ t ≠ p)
    ∧ (∀ pid suspect,
        (s.players.find? (fun p => p.id == pid)).bind (fun p => p.lastBelief)
          = some suspect →
        generateFallbackVote s pid = suspect) := by
  refine ⟨?_, ?_, ?_⟩
  · intro k v h
    unfold fillMissingVotes
    exact fillFold_preserve s.alivePlayers s.alivePlayers _ k v h
  · intro p hp h0 hex
    have hcov := fillFold_covers s.alivePlayers s.alivePlayers
      (s.votes, SeededRNG.init (s.seeds.turns + s.dayNumber)) p hp hex
    rw [mapHas_eq_isSome] at hcov
    cases hg : mapGet (fillMissingVotes s s.votes) p with
    | none =>
      exfalso
      unfold fillMissingVotes at hg
      rw [hg] at hcov
      simp at hcov
    | some t =>
      refine ⟨t, rfl, ?_⟩
      apply fillFold_new_entry s.alivePlayers s.alivePlayers
        (s.votes, SeededRNG.init (s.seeds.turns + s.dayNumber)) p t h0
      unfold fillMissingVotes at hg
      exact hg
  · intro pid suspect h
    unfold generateFallbackVote
    rw [h]

/-- Witness for C7 (amended): the nonvoter p1 of the exC7 state receives a
synthesized vote for another live player. -/
theorem fillMissingVotes_policy_witness :
    ∃ t, mapGet (fillMissingVotes exC7 exC7.votes) "p1" = some t
      ∧ t ∈ exC7.alivePlayers ∧ t ≠ "p1" :=
  (fillMissingVotes_policy exC7).2.1 "p1" (by decide) (by decide)
    ⟨"p2", by decide, by decide⟩

/-- Counterexample to C7 as stated: in the exC7 state the nonvoter p1 has the
stated suspicion p3 (and the fallback engine would return it), yet the
collector synthesizes a vote for p2 instead. -/
theorem fillMissingVotes_ignores_stated_suspicion :
    mapGet (fillMissingVotes exC7 exC7.votes) "p1" = some "p2"
    ∧ (exC7.players.find? (fun p => p.id == "p1")).bind (fun p => p.lastBelief)
        = some "p3"
    ∧ generateFallbackVote exC7 "p1" = "p3"
    ∧ ("p2" : String) ≠ "p3" := by
  decide

/-- C1.  The day-vote transition handler is not a function of the seeds
alone: in the exC1 state the finalized execution target is the hunter, and
the hunter chain-kill victim is drawn with Math.random (modelled by the
oracle argument), so two runs of the same state with the same seeds can
produce different survivor sets.  Night resolution draws the same chain kill
from the seeded generator, so the unseeded draw here contradicts the
determinism the spec requires of every transition handler. -/
theorem handleVotePhase_unseeded_draw :
    (handleVotePhase exC1 0).toOption.map (fun s => s.alivePlayers)
      = some ["v2", "v3"]
    ∧ (handleVotePhase exC1 1).toOption.map (fun s => s.alivePlayers)
      = some ["v1", "v3"]
    ∧ (["v2", "v3"] : List String) ≠ ["v1", "v3"] := by
  decide

/-- The executed id is removed from (or already absent from) the live set the
handler computes. -/
theorem erase_guard_not_mem (alive : List String) (players : List PlayerE)
    (ex : String) (hA : alive.Nodup)
    (hP : ∀ id ∈ alive, ∃ p ∈ players, p.id = id) :
    ex ∉ (if players.any (fun p => p.id == ex) then alive.erase ex else alive) := by
  by_cases hmem : ex ∈ alive
  · obtain ⟨p, hp, hpid⟩ := hP ex hmem
    have hfound : players.any (fun p => p.id == ex) = true :=
      List.any_eq_true.mpr ⟨p, hp, by simp [hpid]⟩
    rw [if_pos hfound]
    exact hA.not_mem_erase
  · split
    · intro hc
      exact hmem (List.mem_of_mem_erase hc)
    · exact hmem

/-- C8.  Tie policy of the vote handler: a tie in DAY_VOTE routes to
DAY_REVOTE_TALK with the tied candidates stored and no execution; a tie in
DAY_REVOTE clears the votes and routes to CHECK_END with no execution; with
no tie the unique maximum-count target is executed — removed from the live
set with an execution death record appended — and the phase moves to
LAST_WILL. -/
theorem handleVotePhase_tie_policy (s : GameState) (o : Nat) (r : VoteResult)
    (hA : s.alivePlayers.Nodup)
    (hP : ∀ id ∈ s.alivePlayers, ∃ p ∈ s.players, p.id = id)
    (hfin : finalizeVotes s s.votes = .ok r) :
    (1 < (tiedIds r.counts).length → s.phase = GamePhase.DAY_VOTE →
       handleVotePhase s o = .ok { s with
         tiedPlayers := some (tiedIds r.counts),
         phase := .DAY_REVOTE_TALK })
    ∧ (1 < (tiedIds r.counts).length → s.phase = GamePhase.DAY_REVOTE →
       handleVotePhase s o = .ok { s with
         votes := [], tiedPlayers := none, phase := .CHECK_END })
    ∧ (¬ 1 < (tiedIds r.counts).length →
       tiedIds r.counts = [r.executedPlayerId]
       ∧ ∃ s', handleVotePhase s o = .ok s'
           ∧ s'.phase = .LAST_WILL
           ∧ r.executedPlayerId ∉ s'.alivePlayers
           ∧ (⟨r.executedPlayerId, s.dayNumber, .EXECUTED⟩ : DeathRecord) ∈ s'.deaths
           ∧ s'.executedPlayerId = some r.executedPlayerId
           ∧ s'.votes = []) := by
  obtain ⟨hrv, hrc, hre0⟩ := finalizeVotes_inv hfin
  have hre : resolveExecution r.counts s.seeds.turns s.dayNumber
      = .ok r.executedPlayerId := by rw [hrc]; exact hre0
  refine ⟨?_, ?_, ?_⟩
  · intro hlen hph
    simp only [handleVotePhase, hfin]
    rw [if_pos ⟨hlen, hph⟩]
  · intro hlen hph
    have hnot1 : ¬ (1 < (tiedIds r.counts).length ∧ s.phase = GamePhase.DAY_VOTE) := by
      rintro ⟨_, hx⟩
      rw [hph] at hx
      cases hx
    simp only [handleVotePhase, hfin]
    rw [if_neg hnot1, if_pos ⟨hlen, hph⟩]
  · intro hlen
    have hcne : r.counts ≠ [] := by
      intro h
      rw [h] at hre
      simp [resolveExecution] at hre
    have huniq := resolveExecution_unique hcne hlen hre
    refine ⟨huniq, ?_⟩
    have hnot1 : ¬ (1 < (tiedIds r.counts).length ∧ s.phase = GamePhase.DAY_VOTE) :=
      fun ⟨hx, _⟩ => hlen hx
    have hnot2 : ¬ (1 < (tiedIds r.counts).length ∧ s.phase = GamePhase.DAY_REVOTE) :=
      fun ⟨hx, _⟩ => hlen hx
    simp only [handleVotePhase, hfin]
    rw [if_neg hnot1, if_neg hnot2]
    set ex := r.executedPlayerId with hex
    set found := s.players.any (fun p => p.id == ex) with hfound
    set players1 := if found then markDeadFirst s.players ex else s.players with hp1
    set alive1 := if found then s.alivePlayers.erase ex else s.alivePlayers with ha1
    have hexna : ex ∉ alive1 := by
      rw [ha1, hfound]
      exact erase_guard_not_mem s.alivePlayers s.players ex hA hP
    by_cases hhunt : mapGet s.roleAssignments ex = some Role.HUNTER ∧ 0 < alive1.length
    · rw [if_pos hhunt]
      set victim := alive1.getD (o % alive1.length) "" with hv
      by_cases hfv : players1.any (fun p => p.id == victim)
      · rw [if_pos hfv]
        refine ⟨_, rfl, rfl, ?_, ?_, rfl, rfl⟩
        · rw [if_pos hfv]
          intro hc
          exact hexna (List.mem_of_mem_erase hc)
        · split <;> simp
      · rw [if_neg hfv]
        refine ⟨_, rfl, rfl, ?_, ?_, rfl, rfl⟩
        · rw [if_neg hfv]
          exact hexna
        · split <;> simp
    · rw [if_neg hhunt]
      exact ⟨_, rfl, rfl, hexna, by simp, rfl, rfl⟩

/-- Witness for C8: the cyclic three-way tie in DAY_VOTE routes to
DAY_REVOTE_TALK with the tied candidates stored and nobody executed. -/
theorem handleVotePhase_tie_policy_witness :
    handleVotePhase exC8 0 = .ok { exC8 with
      tiedPlayers := some (tiedIds rC8.counts),
      phase := .DAY_REVOTE_TALK } :=
  (handleVotePhase_tie_policy exC8 0 rC8 (by decide) (by decide) (by rfl)).1
    (by decide) rfl

/-! ### Lemmas on the victory checker -/

theorem countP_teams_total (l : List Role) :
    l.countP (fun r => ROLE_TEAMS r == Team.VILLAGE)
      + l.countP (fun r => ROLE_TEAMS r == Team.WEREWOLF)
      + l.countP (fun r => ROLE_TEAMS r == Team.FOX) = l.length := by
  induction l with
  | nil => simp
  | cons r rest ih =>
    rw [List.countP_cons, List.countP_cons, List.countP_cons]
    cases h : ROLE_TEAMS r <;> simp [h] <;> omega

theorem filterMap_length_of_isSome {α β : Type} (f : α → Option β) :
    ∀ l : List α, (∀ x ∈ l, (f x).isSome) → (l.filterMap f).length = l.length := by
  intro l
  induction l with
  | nil => simp
  | cons a rest ih =>
    intro h
    rw [List.filterMap_cons]
    cases hf : f a with
    | none =>
      have := h a (List.mem_cons_self a rest)
      rw [hf] at this
      simp at this
    | some b =>
      simp only [List.length_cons]
      rw [ih (fun x hx => h x (List.mem_cons_of_mem a hx))]

theorem aliveRoles_length (s : GameState)
    (h : ∀ id ∈ s.alivePlayers, (mapGet s.roleAssignments id).isSome) :
    (aliveRoles s).length = s.alivePlayers.length := by
  unfold aliveRoles
  exact filterMap_length_of_isSome _ _ h

theorem countTeam_total (s : GameState)
    (h : ∀ id ∈ s.alivePlayers, (mapGet s.roleAssignments id).isSome) :
    countTeam s .VILLAGE + countTeam s .WEREWOLF + countTeam s .FOX
      = s.alivePlayers.length := by
  unfold countTeam
  rw [countP_teams_total, aliveRoles_length s h]

/-- Counterexample to C2 as stated: with every player dead (roles still
assigned) the live werewolf-team count is zero, yet check declares the
werewolf faction the winner, not the village — the claimed biconditional for
the village fails at this state. -/
theorem victoryCheck_all_dead_counterexample :
    countTeam exC2dead .WEREWOLF = 0
    ∧ countTeam exC2dead .FOX = 0
    ∧ victoryCheck exC2dead = ⟨true, some Team.WEREWOLF⟩
    ∧ victoryCheck exC2dead ≠ ⟨true, some Team.VILLAGE⟩ := by
  decide

/-- C2 (amended).  For every state after role assignment with at least one
live player, check returns the werewolf faction exactly when the live
werewolf-team count reaches the count of everyone else combined and no fox
lives, the village exactly when no werewolf-team member lives and no fox
lives, the fox exactly when a fox lives and one of the two ending conditions
holds, and no winner otherwise. -/
theorem victoryCheck_faction_rule (s : GameState)
    (hne : s.alivePlayers ≠ [])
    (hroles : ∀ id ∈ s.alivePlayers, (mapGet s.roleAssignments id).isSome) :
    ((victoryCheck s).winner = some Team.WEREWOLF ↔
      (countTeam s .VILLAGE + countTeam s .FOX ≤ countTeam s .WEREWOLF
        ∧ countTeam s .FOX = 0))
    ∧ ((victoryCheck s).winner = some Team.VILLAGE ↔
      (countTeam s .WEREWOLF = 0 ∧ countTeam s .FOX = 0))
    ∧ ((victoryCheck s).winner = some Team.FOX ↔
      (0 < countTeam s .FOX
        ∧ (countTeam s .VILLAGE + countTeam s .FOX ≤ countTeam s .WEREWOLF
           ∨ countTeam s .WEREWOLF = 0)))
    ∧ ((victoryCheck s).hasWinner = false ↔
      (countTeam s .WEREWOLF < countTeam s .VILLAGE + countTeam s .FOX
        ∧ countTeam s .WEREWOLF ≠ 0)) := by
  have htot := countTeam_total s hroles
  have hpos : 0 < s.alivePlayers.length := List.length_pos.mpr hne
  simp only [victoryCheck]
  split_ifs with h1 h2 h3 h4 <;>
    refine ⟨?_, ?_, ?_, ?_⟩ <;> simp <;> omega

/-- Witness for C2 (amended): one live werewolf against two live villagers is
not yet a win for anyone. -/
theorem victoryCheck_faction_rule_witness :
    (victoryCheck exC2live).hasWinner = false :=
  ((victoryCheck_faction_rule exC2live (by decide) (by decide)).2.2.2).mpr
    (by decide)

/-! ### Lemmas on the night resolver -/

theorem build_preserve {β : Type} (f : String × String → β)
    (l : List (String × String)) :
    ∀ (acc : List (String × β)) (k : String), (∀ q ∈ l, q.1 ≠ k) →
      mapGet (l.foldl (fun m q => mapSet m q.1 (f q)) acc) k = mapGet acc k := by
  induction l with
  | nil => intro acc k _; rfl
  | cons q rest ih =>
    intro acc k h
    rw [List.foldl_cons]
    rw [ih _ k (fun q' hq' => h q' (List.mem_cons_of_mem q hq'))]
    exact mapGet_mapSet_ne acc q.1 k (f q)
      (fun he => h q (List.mem_cons_self q rest) he.symm)

theorem build_lookup {β : Type} (f : String × String → β)
    (l : List (String × String)) :
    ∀ acc : List (String × β), (l.map Prod.fst).Nodup →
      ∀ pr ∈ l, mapGet (l.foldl (fun m q => mapSet m q.1 (f q)) acc) pr.1
        = some (f pr) := by
  induction l with
  | nil => intro acc _ pr h; cases h
  | cons q rest ih =>
    intro acc hnd pr h
    rw [List.map_cons, List.nodup_cons] at hnd
    rw [List.foldl_cons]
    rcases List.mem_cons.mp h with he | hm
    · subst he
      rw [build_preserve f rest _ pr.1 ?_]
      · exact mapGet_mapSet_self acc pr.1 (f pr)
      · intro q' hq' he
        exact hnd.1 (he ▸ List.mem_map_of_mem Prod.fst hq')
    · exact ih _ hnd.2 pr hm

theorem resolveAttack_protected (s : GameState) (a : NightActionsE) (t : String)
    (hatt : a.attack = some t) (hprot : t ∈ resolveProtections a) :
    (resolveAttack s a (resolveProtections a)).1 = []
    ∧ (resolveAttack s a (resolveProtections a)).2
      = a.protections.foldl
          (fun m pr => mapSet m pr.1 ⟨pr.1, pr.2, pr.2 == t⟩) [] := by
  simp only [resolveAttack, hatt]
  constructor
  · split
    · rename_i hcond
      exact absurd hprot hcond.1
    · rfl
  · trivial

/-- C3.  Protection blocks the attack: whenever the single submitted attack
target is among the protection targets, night resolution kills nobody (in
particular not the target), and every guardian has a recorded protection
result whose success bit is set exactly when that guardian protected the
actual attack target; with no submitted attack nothing dies and resolution
still returns a result. -/
theorem protection_blocks_attack (s : GameState) (a : NightActionsE)
    (hK : (a.protections.map Prod.fst).Nodup) :
    (∀ t, a.attack = some t → t ∈ resolveProtections a →
       t ∉ (nightResolve s a).deaths
       ∧ (∀ pr ∈ a.protections,
           mapGet (nightResolve s a).protectionResults pr.1
             = some ⟨pr.1, pr.2, pr.2 == t⟩))
    ∧ (a.attack = none → (nightResolve s a).deaths = []) := by
  constructor
  · intro t hatt hprot
    obtain ⟨hd, hpr⟩ := resolveAttack_protected s a t hatt hprot
    have hdeaths : (nightResolve s a).deaths = [] := by
      simp only [nightResolve]
      rw [hd]
      simp [resolveBetrayer, resolveHunter]
    constructor
    · rw [hdeaths]
      simp
    · intro pr hpr'
      have hres : (nightResolve s a).protectionResults
          = a.protections.foldl
              (fun m pr => mapSet m pr.1 ⟨pr.1, pr.2, pr.2 == t⟩) [] := by
        simp only [nightResolve]
        exact hpr
      rw [hres]
      exact build_lookup _ a.protections [] hK pr hpr'
  · intro hatt
    have hnone : resolveAttack s a (resolveProtections a) = ([], []) := by
      simp only [resolveAttack, hatt]
    simp only [nightResolve]
    rw [hnone]
    simp [resolveBetrayer, resolveHunter]

/-- Witness for C3 (spec scenario 2): the knight guards the attacked player
X, X survives, and the knight is told the protection succeeded. -/
theorem protection_blocks_attack_witness :
    ("X" : String) ∉ (nightResolve exC3 exC3a).deaths
    ∧ mapGet (nightResolve exC3 exC3a).protectionResults "g"
        = some ⟨"g", "X", true⟩ := by
  have h := (protection_blocks_attack exC3 exC3a (by decide)).1 "X" rfl (by decide)
  refine ⟨h.1, ?_⟩
  have h2 := h.2 ("g", "X") (by decide)
  simpa using h2

/-- C4.  Medium resolution never happens: in the exC4 state the medium m is
alive and the previous day executed the werewolf e (recorded in the state),
the oracle mapping would report WEREWOLF, yet resolveMedium is a placeholder
that returns the empty map, so night resolution carries no medium result at
all. -/
theorem resolveMedium_placeholder_empty :
    livingMediums exC4 = ["m"]
    ∧ exC4.executedPlayerId = some "e"
    ∧ mapGet exC4.roleAssignments "e" = some Role.WEREWOLF
    ∧ getMediumResult Role.WEREWOLF = OracleResult.WEREWOLF
    ∧ (nightResolve exC4 ⟨[], [], none⟩).mediumResults = []
    ∧ ∀ st : GameState, resolveMedium st = [] := by
  refine ⟨by decide, by decide, by decide, by decide, by decide, fun st => rfl⟩
